import Mathlib

set_option maxHeartbeats 1000000

/-!
Verification of the `singlejson` persistence core (`src/singlejson/fileutils.py`)
against its natural-language specification.

The embedding models:
* JSON values as produced by Python's `json` module (numbers restricted to
  integers; floating point payloads are outside the scope of this embedding);
* the on-disk world as the content of the one target path, the temp file used
  by the atomic primitives, and the optional default-source file;
* Python exceptions as an explicit error type threaded through every operation;
* I/O faults (permission errors, disk-full, injected failures) as explicit
  fault-schedule arguments, one per fault point of the source code.
-/

/-- JSON values. Objects keep their (insertion) key order exactly as Python
dicts do; Python dict equality is order-insensitive and is modelled by
`pyDeepEq` below. -/
inductive JSON where
  | null
  | bool (b : Bool)
  | num (n : Int)
  | str (s : String)
  | arr (elems : List JSON)
  | obj (entries : List (String × JSON))

/-- Ordering of object entries by key, as used by `json.dumps(sort_keys=True)`
(Python `sorted` over the string keys). -/
def keyLe (a b : String × JSON) : Prop := a.1 ≤ b.1

instance : DecidableRel keyLe := fun a b => inferInstanceAs (Decidable (a.1 ≤ b.1))

instance : IsTotal (String × JSON) keyLe := ⟨fun a b => le_total a.1 b.1⟩

instance : IsTrans (String × JSON) keyLe := ⟨fun _ _ _ h₁ h₂ => le_trans h₁ h₂⟩

mutual

/-- Recursively sort all object keys of a JSON value. This is the effect of
`json.dumps(v, sort_keys=True)` followed by `json.load`: the physical text
lists each object's entries in sorted key order, so parsing it back yields
the key-sorted value. -/
def sortKeys : JSON → JSON
  | .null => .null
  | .bool b => .bool b
  | .num n => .num n
  | .str s => .str s
  | .arr es => .arr (sortKeysList es)
  | .obj es => .obj (List.insertionSort keyLe (sortKeysEntries es))

/-- `sortKeys` mapped over a list of values. -/
def sortKeysList : List JSON → List JSON
  | [] => []
  | v :: rest => sortKeys v :: sortKeysList rest

/-- `sortKeys` mapped over the values of an entry list. -/
def sortKeysEntries : List (String × JSON) → List (String × JSON)
  | [] => []
  | (k, v) :: rest => (k, sortKeys v) :: sortKeysEntries rest

end

theorem sortKeysList_eq_map (es : List JSON) : sortKeysList es = es.map sortKeys := by
  induction es with
  | nil => rfl
  | cons v rest ih => simp [sortKeysList, ih]

theorem sortKeysEntries_eq_map (es : List (String × JSON)) :
    sortKeysEntries es = es.map (fun p => (p.1, sortKeys p.2)) := by
  induction es with
  | nil => rfl
  | cons p rest ih => cases p; simp [sortKeysEntries, ih]

theorem sortKeys_idem_aux :
    ∀ n : Nat, ∀ v : JSON, sizeOf v ≤ n → sortKeys (sortKeys v) = sortKeys v := by
  intro n
  induction n with
  | zero =>
    intro v h
    cases v <;> simp_all
  | succ n ih =>
    intro v hv
    cases v with
    | null => rfl
    | bool b => rfl
    | num m => rfl
    | str s => rfl
    | arr es =>
      simp only [sortKeys, sortKeysList_eq_map, List.map_map]
      refine congrArg JSON.arr (List.map_congr_left ?_)
      intro a ha
      have h1 : sizeOf a < sizeOf es := List.sizeOf_lt_of_mem ha
      have h2 : sizeOf (JSON.arr es) = 1 + sizeOf es := by simp
      exact ih a (by omega)
    | obj es =>
      simp only [sortKeys, sortKeysEntries_eq_map, List.map_map]
      have hmapfix :
          (List.insertionSort keyLe (es.map fun p => (p.1, sortKeys p.2))).map
              (fun p => (p.1, sortKeys p.2))
            = List.insertionSort keyLe (es.map fun p => (p.1, sortKeys p.2)) := by
        have hid :
            ∀ q ∈ List.insertionSort keyLe (es.map fun p => (p.1, sortKeys p.2)),
              (fun p => (p.1, sortKeys p.2)) q = q := by
          intro q hq
          have hq' : q ∈ es.map (fun p => (p.1, sortKeys p.2)) :=
            (List.perm_insertionSort keyLe _).subset hq
          rcases List.mem_map.mp hq' with ⟨p, hp, rfl⟩
          have h1 : sizeOf p < sizeOf es := List.sizeOf_lt_of_mem hp
          have h2 : sizeOf p.2 < sizeOf p := by
            cases p; simp
          have h3 : sizeOf (JSON.obj es) = 1 + sizeOf es := by simp
          have := ih p.2 (by omega)
          simp [this]
        calc (List.insertionSort keyLe (es.map fun p => (p.1, sortKeys p.2))).map
              (fun p => (p.1, sortKeys p.2))
            = (List.insertionSort keyLe (es.map fun p => (p.1, sortKeys p.2))).map id :=
              List.map_congr_left hid
          _ = _ := List.map_id _
      rw [hmapfix]
      exact congrArg JSON.obj
        ((List.sorted_insertionSort keyLe _).insertionSort_eq)

/-- Sorting object keys is idempotent. -/
theorem sortKeys_idem (v : JSON) : sortKeys (sortKeys v) = sortKeys v :=
  sortKeys_idem_aux (sizeOf v) v le_rfl

/-- Python deep equality (`==`) on JSON values: dict comparison ignores key
order, so two values are equal exactly when their key-sorted normal forms
coincide. -/
def pyDeepEq (a b : JSON) : Prop := sortKeys a = sortKeys b

theorem pyDeepEq_refl (a : JSON) : pyDeepEq a a := rfl

theorem pyDeepEq_sortKeys (v : JSON) : pyDeepEq (sortKeys v) v := sortKeys_idem v

/-- Serialization settings, mirroring `JsonSerializationSettings`
(indent=4, sort_keys=True, ensure_ascii=False, encoding="utf-8"). -/
structure JsonSerializationSettings where
  indent : Nat := 4
  sort_keys : Bool := true
  ensure_ascii : Bool := false
  encoding : String := "utf-8"
deriving DecidableEq

/-- Default settings instance (`DEFAULT_SERIALIZATION_SETTINGS`). -/
def DEFAULT_SERIALIZATION_SETTINGS : JsonSerializationSettings := {}

/-- A Python value held in `self.json` or passed as `default_data`: either a
JSON-serializable value or an unserializable object such as a `set`
(on which `json.dumps` raises `TypeError`); the tag distinguishes
different unserializable objects. -/
inductive PyVal where
  | ser (j : JSON)
  | unser (tag : Nat)

/-- The text content of a file, abstracted by its JSON-parsing behaviour:
`dump v indent sk ascii` is the output of `json.dumps(v, indent=...,
sort_keys=sk, ensure_ascii=ascii)`, `emptyObj` is the literal `"{}"`
written by the recovery fallbacks, and `invalid s` is any text that does
not parse as JSON. -/
inductive FileText where
  | dump (v : JSON) (indent : Nat) (sortKeysFlag : Bool) (ensureAsciiFlag : Bool)
  | emptyObj
  | invalid (s : String)

/-- Model of parsing a file's text with `json.load`: the physical text of a
`sort_keys=True` dump lists every object's entries in sorted key order, so
parsing it back yields the recursively key-sorted value. -/
def parseText : FileText → Option JSON
  | .dump v _ sk _ => some (if sk then sortKeys v else v)
  | .emptyObj => some (.obj [])
  | .invalid _ => none

/-- A file on disk: its text and the encoding it was written with. -/
structure FileState where
  text : FileText
  encoding : String

/-- The modelled filesystem: the file at the instance's target path
(`self.__path`), the temp file used by the atomic primitives, and the file
at the configured `default_path` (if any). -/
structure FS where
  target : Option FileState
  temp : Option FileState
  defaultFile : Option FileState

/-- The underlying cause chained onto a raised library exception
(`raise ... from e`). -/
inductive Cause where
  | osFault
  | typeError
  | jsonDecode
  | missingFile
deriving DecidableEq

/-- Python exceptions surfaced by the modelled operations. `typeErrorRaw` and
`osErrorRaw` are stdlib exceptions escaping unwrapped. -/
inductive PyErr where
  | fileAccessError (cause : Cause)
  | defaultNotJSONSerializableError (cause : Cause)
  | jsonDeserializationError (cause : Cause)
  | typeErrorRaw
  | osErrorRaw
deriving DecidableEq

/-- Where a single `_atomic_write_text` call can fail: while creating the
parent directory, while writing the temp file (leaving a partial temp
file behind), or at the final `os.replace`. -/
inductive WriteOutcome where
  | success
  | mkdirFail
  | tempWriteFail (leftoverText : FileText)
  | replaceFail

/-- Model of `_atomic_write_text` (fileutils.py lines 51-73): write `text` to
a fresh temp file in the target directory, then `os.replace` it over the
target. Every step sits inside one `try` block whose handler re-raises as
`FileAccessError` chained to the original error; the target path itself
changes only at the final atomic replace. -/
def atomic_write_text (fs : FS) (text : FileText) (encoding : String)
    (outcome : WriteOutcome) : Except PyErr Unit × FS :=
  match outcome with
  | .success => (.ok (), { fs with target := some ⟨text, encoding⟩, temp := none })
  | .mkdirFail => (.error (.fileAccessError .osFault), fs)
  | .tempWriteFail leftoverText =>
      (.error (.fileAccessError .osFault), { fs with temp := some ⟨leftoverText, encoding⟩ })
  | .replaceFail =>
      (.error (.fileAccessError .osFault), { fs with temp := some ⟨text, encoding⟩ })

/-- Model of `_atomic_copy_file` (fileutils.py lines 76-102): copy the
default-source file over the target via a temp file and `os.replace`. On
copy/replace failure the temp file is removed (best-effort cleanup) and
`FileAccessError` is raised with the original cause; the target is
untouched. The `mkdir` and temp-file-creation steps sit outside the
source's `try` block and are given no fault point here. -/
def atomic_copy_file (fs : FS) (src : FileState) (copyFault : Bool) :
    Except PyErr Unit × FS :=
  if copyFault then (.error (.fileAccessError .osFault), { fs with temp := none })
  else (.ok (), { fs with target := some src, temp := none })

/-- Model of `json.dumps(v, indent=..., sort_keys=..., ensure_ascii=...)`:
produces the dump text, or raises `TypeError` on an unserializable value. -/
def dumps (v : PyVal) (s : JsonSerializationSettings) : Except PyErr FileText :=
  match v with
  | .ser j => .ok (.dump j s.indent s.sort_keys s.ensure_ascii)
  | .unser _ => .error .typeErrorRaw

/-- Result of opening and `json.load`-ing the target file: an I/O-layer fault
(`PermissionError`/`OSError`, including `FileNotFoundError` from `open`),
a `json.JSONDecodeError`, or the parsed value. -/
inductive ReadResult where
  | ioFault
  | decodeFault
  | ok (j : JSON)

/-- Open the target file and `json.load` it, with an injectable I/O fault. -/
def json_load_target (fs : FS) (fault : Bool) : ReadResult :=
  if fault then .ioFault
  else
    match fs.target with
    | none => .ioFault
    | some c =>
      match parseText c.text with
      | some j => .ok j
      | none => .decodeFault

/-- The recovery material of a `JSONFile`: the deep-copied `__default_data`
value, or a configured (truthy) `__default_path` whose file content lives
in `FS.defaultFile`. Exactly one of the two is active, as in the source. -/
inductive DefaultSpec where
  | byValue (v : PyVal)
  | byPath

/-- The in-memory state of a `JSONFile` instance. The absolute path is
implicit (`FS.target` is the file at `self.__path`); the per-instance
reentrant lock is not modelled, since every operation here is a complete
lock-guarded critical section. -/
structure JSONFile where
  json : PyVal
  defaultSpec : DefaultSpec
  settings : JsonSerializationSettings

/-- Fault schedule for one `__reinstantiate_default` call: one fault point
for the copy branch, one for the default-value dump write, one for the
`"{}"` fallback write. -/
structure IFaults where
  copyFault : Bool := false
  dumpWrite : WriteOutcome := .success
  emptyWrite : WriteOutcome := .success

/-- Fault schedule for one `reload` call, one field per fault point in
source order. -/
structure RFaults where
  reinst1 : IFaults := {}
  read1 : Bool := false
  reinst2 : IFaults := {}
  read2 : Bool := false
  fallbackWrite : WriteOutcome := .success

/-- Fault schedule for one `save` call. -/
structure SFaults where
  mkdirFault : Bool := false
  write : WriteOutcome := .success

/-- Fault schedule for one construction. -/
structure InitFaults where
  defaultRead : Bool := false
  reloadFaults : RFaults := {}

/-- Model of `JSONFile.__reinstantiate_default` (fileutils.py lines 222-266):
revert the target file to the default. With a configured default path,
copy that file if it exists, else write `"{}"` (raising the
default-invalid error first if `recover` is false). With a default value,
serialize and write it; if `json.dumps` raises, either raise the
default-invalid error (`recover` false) or fall back to writing `"{}"`.
A `FileAccessError` from the atomic primitives is not caught by the
source's `except (TypeError, ValueError, json.JSONDecodeError)` handler
and propagates. -/
def JSONFile.reinstantiate_default (st : JSONFile) (fs : FS) (recover : Bool)
    (f : IFaults) : Except PyErr Unit × FS :=
  match st.defaultSpec with
  | .byPath =>
      match fs.defaultFile with
      | some src => atomic_copy_file fs src f.copyFault
      | none =>
          if !recover then (.error (.defaultNotJSONSerializableError .missingFile), fs)
          else atomic_write_text fs .emptyObj st.settings.encoding f.emptyWrite
  | .byValue v =>
      match dumps v st.settings with
      | .ok text => atomic_write_text fs text st.settings.encoding f.dumpWrite
      | .error _ =>
          if !recover then (.error (.defaultNotJSONSerializableError .typeError), fs)
          else atomic_write_text fs .emptyObj st.settings.encoding f.emptyWrite

/-- The error raised when the target file's content fails to parse and
`recover` is false: blamed on the default-source file when one is
configured, on the target file otherwise (fileutils.py lines 306-318). -/
def parseFailErr : DefaultSpec → PyErr
  | .byPath => .defaultNotJSONSerializableError .jsonDecode
  | .byValue _ => .jsonDeserializationError .jsonDecode

/-- Step 2 of `JSONFile.reload` (fileutils.py lines 298-344): the target file
now exists; open and parse it, running the recovery path on decode errors.
The first read's handlers wrap I/O faults as `FileAccessError`; the single
post-recovery retry read catches only `json.JSONDecodeError`, so an I/O
fault there propagates as the raw `OSError`. Factored out of `reload` for
proof modularity. -/
def JSONFile.reload_load (st : JSONFile) (fs₁ : FS) (recover : Bool) (f : RFaults) :
    Except PyErr Unit × JSONFile × FS :=
  match json_load_target fs₁ f.read1 with
  | .ok j => (.ok (), { st with json := .ser j }, fs₁)
  | .ioFault => (.error (.fileAccessError .osFault), st, fs₁)
  | .decodeFault =>
    if !recover then (.error (parseFailErr st.defaultSpec), st, fs₁)
    else
      match st.reinstantiate_default fs₁ recover f.reinst2 with
      | (.error e, fs₂) => (.error e, st, fs₂)
      | (.ok _, fs₂) =>
        match json_load_target fs₂ f.read2 with
        | .ok j => (.ok (), { st with json := .ser j }, fs₂)
        | .ioFault => (.error .osErrorRaw, st, fs₂)
        | .decodeFault =>
          if !recover then (.error (parseFailErr st.defaultSpec), st, fs₂)
          else
            match atomic_write_text fs₂ .emptyObj st.settings.encoding f.fallbackWrite with
            | (.error e, fs₃) => (.error e, st, fs₃)
            | (.ok _, fs₃) => (.ok (), { st with json := .ser (.obj []) }, fs₃)

/-- Model of `JSONFile.reload` (fileutils.py lines 277-344). Returns the
raised exception or success, together with the updated instance and
filesystem (updates persist even when an exception propagates). Step 1:
if the target file does not exist, materialize the default; step 2:
open, parse and recover (`reload_load`). -/
def JSONFile.reload (st : JSONFile) (fs : FS) (recover : Bool) (f : RFaults) :
    Except PyErr Unit × JSONFile × FS :=
  match fs.target with
  | none =>
    match st.reinstantiate_default fs recover f.reinst1 with
    | (.error e, fs₁) => (.error e, st, fs₁)
    | (.ok _, fs₁) => st.reload_load fs₁ recover f
  | some _ => st.reload_load fs recover f

/-- Model of `JSONFile.save` (fileutils.py lines 346-368): serialize the
current value under the given settings (or the instance settings when none
are given) and atomically write the text — always with the *instance*
settings' encoding (`self.settings.encoding` at line 366). `mkdir` runs
first and its faults are wrapped as `FileAccessError`; `json.dumps` runs
before any write to the target and its `TypeError` propagates unwrapped. -/
def JSONFile.save (st : JSONFile) (fs : FS)
    (settingsArg : Option JsonSerializationSettings) (f : SFaults) :
    Except PyErr Unit × JSONFile × FS :=
  let s := settingsArg.getD st.settings
  if f.mkdirFault then (.error (.fileAccessError .osFault), st, fs)
  else
    match dumps st.json s with
    | .error e => (.error e, st, fs)
    | .ok text =>
      match atomic_write_text fs text st.settings.encoding f.write with
      | (.error e, fs') => (.error e, st, fs')
      | (.ok _, fs') => (.ok (), st, fs')

/-- Model of `JSONFile.__init__` (fileutils.py lines 133-220). A truthy
`default_path` argument is modelled by `useDefaultPath` together with
`FS.defaultFile` (the file at that path); `deepcopy(default_data)` is
value capture here (the heap-level copy semantics are modelled separately
below). In strict mode the default material is validated eagerly, before
any file I/O; then, when `load_file` is set, `reload(recover=strict)`
runs. On failure no instance is returned, but filesystem effects of the
construction-time reload persist. -/
def JSONFile.init (fs : FS) (default_data : PyVal) (useDefaultPath : Bool)
    (settings : JsonSerializationSettings) (strict : Bool) (load_file : Bool)
    (f : InitFaults) : Except PyErr JSONFile × FS :=
  let checked : Except PyErr DefaultSpec :=
    if useDefaultPath then
      if strict then
        match fs.defaultFile with
        | some d =>
            if f.defaultRead then .error (.fileAccessError .osFault)
            else
              match parseText d.text with
              | some _ => .ok .byPath
              | none => .error (.defaultNotJSONSerializableError .jsonDecode)
        | none => .error (.defaultNotJSONSerializableError .missingFile)
      else .ok .byPath
    else
      if strict then
        match dumps default_data settings with
        | .ok _ => .ok (.byValue default_data)
        | .error _ => .error (.defaultNotJSONSerializableError .typeError)
      else .ok (.byValue default_data)
  match checked with
  | .error e => (.error e, fs)
  | .ok spec =>
    let st : JSONFile := ⟨.ser .null, spec, settings⟩
    if load_file then
      match st.reload fs strict f.reloadFaults with
      | (.ok _, st', fs') => (.ok st', fs')
      | (.error e, _, fs') => (.error e, fs')
    else (.ok st, fs)

/-- One subsequent caller-visible file operation on a constructed instance. -/
inductive Op where
  | reloadOp (recover : Bool) (f : RFaults)
  | saveOp (s : Option JsonSerializationSettings) (f : SFaults)

/-- Run a sequence of reload/save calls, keeping the updated state whether
each call returns normally or raises (the exception propagates to the
caller, who may keep using the instance afterwards). -/
def runOps : JSONFile → FS → List Op → JSONFile × FS
  | st, fs, [] => (st, fs)
  | st, fs, .reloadOp r f :: rest =>
      let x := st.reload fs r f
      runOps x.2.1 x.2.2 rest
  | st, fs, .saveOp s f :: rest =>
      let x := st.save fs s f
      runOps x.2.1 x.2.2 rest

/-- The file at the target path exists and contains syntactically valid JSON. -/
def ValidTarget (fs : FS) : Prop :=
  ∃ c, fs.target = some c ∧ (parseText c.text).isSome

theorem json_load_target_ok_valid {fs : FS} {fault : Bool} {j : JSON}
    (h : json_load_target fs fault = .ok j) : ValidTarget fs := by
  unfold json_load_target at h
  cases hf : fault with
  | true => rw [hf] at h; simp at h
  | false =>
    rw [hf] at h
    simp only [Bool.false_eq_true, if_false] at h
    rcases ht : fs.target with _ | c
    · rw [ht] at h; simp at h
    · rw [ht] at h
      rcases hp : parseText c.text with _ | v
      · simp [hp] at h
      · exact ⟨c, ht, by simp [hp]⟩

theorem atomic_write_ok_target {fs : FS} {t : FileText} {e : String}
    {o : WriteOutcome} {u : Unit} {fs' : FS}
    (h : atomic_write_text fs t e o = (.ok u, fs')) :
    fs'.target = some ⟨t, e⟩ := by
  cases o with
  | success => simp [atomic_write_text] at h; simp [← h]
  | mkdirFail => simp [atomic_write_text] at h
  | tempWriteFail lt => simp [atomic_write_text] at h
  | replaceFail => simp [atomic_write_text] at h

theorem reload_load_ok_valid {st : JSONFile} {fs₁ : FS} {r : Bool} {f : RFaults}
    {u : Unit} {st' : JSONFile} {fs' : FS}
    (h : st.reload_load fs₁ r f = (.ok u, st', fs')) : ValidTarget fs' := by
  unfold JSONFile.reload_load at h
  rcases hld : json_load_target fs₁ f.read1 with _ | _ | j <;> rw [hld] at h
  · simp at h
  · -- decode fault on the first read
    cases r with
    | false => simp at h
    | true =>
      simp only [Bool.not_true, Bool.false_eq_true, if_false] at h
      rcases hre : st.reinstantiate_default fs₁ true f.reinst2 with ⟨e2 | u2, fs₂⟩ <;>
        simp only [hre] at h
      · simp at h
      · rcases hld2 : json_load_target fs₂ f.read2 with _ | _ | j <;> rw [hld2] at h
        · simp at h
        · simp only [Bool.not_true, Bool.false_eq_true, if_false] at h
          rcases hw : atomic_write_text fs₂ .emptyObj st.settings.encoding f.fallbackWrite
            with ⟨e3 | u3, fs₃⟩ <;> simp only [hw] at h
          · simp at h
          · simp only [Prod.mk.injEq] at h
            obtain ⟨-, -, rfl⟩ := h
            exact ⟨_, atomic_write_ok_target hw, by simp [parseText]⟩
        · simp only [Prod.mk.injEq] at h
          obtain ⟨-, -, rfl⟩ := h
          exact json_load_target_ok_valid hld2
  · simp only [Prod.mk.injEq] at h
    obtain ⟨-, -, rfl⟩ := h
    exact json_load_target_ok_valid hld

theorem reload_ok_valid {st : JSONFile} {fs : FS} {r : Bool} {f : RFaults}
    {u : Unit} {st' : JSONFile} {fs' : FS}
    (h : st.reload fs r f = (.ok u, st', fs')) : ValidTarget fs' := by
  unfold JSONFile.reload at h
  rcases ht : fs.target with _ | c <;> rw [ht] at h
  · rcases hre : st.reinstantiate_default fs r f.reinst1 with ⟨e1 | u1, fs₁⟩ <;>
      simp only [hre] at h
    · simp at h
    · exact reload_load_ok_valid h
  · exact reload_load_ok_valid h

theorem reload_valid_pres (st : JSONFile) (fs : FS) (r : Bool) (f : RFaults)
    (hv : ValidTarget fs) : ValidTarget (st.reload fs r f).2.2 := by
  obtain ⟨c, hc, hsome⟩ := hv
  obtain ⟨j, hj⟩ := Option.isSome_iff_exists.mp hsome
  cases hr1 : f.read1 with
  | true =>
    simp only [JSONFile.reload, JSONFile.reload_load, hc, json_load_target, hr1, if_true]
    exact ⟨c, hc, by simp [hj]⟩
  | false =>
    simp only [JSONFile.reload, JSONFile.reload_load, hc, json_load_target, hr1,
      Bool.false_eq_true, if_false, hj]
    exact ⟨c, hc, by simp [hj]⟩

theorem save_valid_pres (st : JSONFile) (fs : FS)
    (sa : Option JsonSerializationSettings) (f : SFaults)
    (hv : ValidTarget fs) : ValidTarget (st.save fs sa f).2.2 := by
  cases hm : f.mkdirFault with
  | true => simp only [JSONFile.save, hm, if_true]; exact hv
  | false =>
    cases hj : st.json with
    | unser t =>
      simp only [JSONFile.save, hm, hj, dumps, Bool.false_eq_true, if_false]
      exact hv
    | ser jj =>
      cases ho : f.write with
      | success =>
        simp only [JSONFile.save, hm, hj, dumps, ho, atomic_write_text,
          Bool.false_eq_true, if_false]
        exact ⟨_, rfl, by simp [parseText]⟩
      | mkdirFail =>
        simp only [JSONFile.save, hm, hj, dumps, ho, atomic_write_text,
          Bool.false_eq_true, if_false]
        exact hv
      | tempWriteFail lt =>
        simp only [JSONFile.save, hm, hj, dumps, ho, atomic_write_text,
          Bool.false_eq_true, if_false]
        obtain ⟨c, hc, hs⟩ := hv
        exact ⟨c, hc, hs⟩
      | replaceFail =>
        simp only [JSONFile.save, hm, hj, dumps, ho, atomic_write_text,
          Bool.false_eq_true, if_false]
        obtain ⟨c, hc, hs⟩ := hv
        exact ⟨c, hc, hs⟩

theorem init_ok_valid {fs : FS} {dd : PyVal} {udp : Bool}
    {s : JsonSerializationSettings} {strict : Bool} {f : InitFaults}
    {st : JSONFile} {fs₁ : FS}
    (h : JSONFile.init fs dd udp s strict true f = (.ok st, fs₁)) :
    ValidTarget fs₁ := by
  simp only [JSONFile.init, if_true] at h
  split at h
  · simp at h
  · split at h
    · rename_i u st' fs' hre
      simp only [Prod.mk.injEq] at h
      obtain ⟨-, rfl⟩ := h
      exact reload_ok_valid hre
    · simp at h

/-- C1: for every `JSONFile` constructed with `load_file=True` whose
construction completes successfully, the file at its path exists and
contains syntactically valid JSON, and every subsequent `reload` and
`save` call — whatever its arguments and injected I/O faults, and whether
it returns normally or raises — preserves this invariant. -/
theorem C1_construction_establishes_valid_file_and_ops_preserve_it
    (fs : FS) (dd : PyVal) (udp : Bool) (s : JsonSerializationSettings)
    (strict : Bool) (f : InitFaults) (st : JSONFile) (fs₁ : FS)
    (hinit : JSONFile.init fs dd udp s strict true f = (.ok st, fs₁))
    (ops : List Op) : ValidTarget (runOps st fs₁ ops).2 := by
  have hbase : ValidTarget fs₁ := init_ok_valid hinit
  clear hinit
  induction ops generalizing st fs₁ with
  | nil => exact hbase
  | cons op rest ih =>
    cases op with
    | reloadOp r rf =>
      simp only [runOps]
      exact ih _ _ (reload_valid_pres st fs₁ r rf hbase)
    | saveOp ss sf =>
      simp only [runOps]
      exact ih _ _ (save_valid_pres st fs₁ ss sf hbase)

/-- Concrete instance state produced by the C1 witness construction. -/
def stW1 : JSONFile := ⟨.ser .null, .byValue (.ser .null), {}⟩

/-- Concrete filesystem produced by the C1 witness construction. -/
def fsW1 : FS := ⟨some ⟨.dump .null 4 true false, "utf-8"⟩, none, none⟩

theorem C1_witness :
    ValidTarget (runOps stW1 fsW1
      [.saveOp none {}, .reloadOp true {}, .reloadOp false {}]).2 :=
  C1_construction_establishes_valid_file_and_ops_preserve_it
    ⟨none, none, none⟩ (.ser .null) false {} true {} stW1 fsW1 rfl
    [.saveOp none {}, .reloadOp true {}, .reloadOp false {}]

/-- C4: round-trip — after assigning a serializable value `v` to the
instance's value, `save()` (no settings argument, no I/O faults) followed
by `reload()` returns normally and leaves the in-memory value
Python-deep-equal to `v`, for every serialization options value carried by
the instance. -/
theorem C4_save_reload_roundtrip
    (st : JSONFile) (fs : FS) (v : JSON) (recover : Bool) :
    (({ st with json := .ser v } : JSONFile).save fs none {}).1 = .ok () ∧
    (let r₁ := ({ st with json := .ser v } : JSONFile).save fs none {}
     let r₂ := r₁.2.1.reload r₁.2.2 recover {}
     r₂.1 = .ok () ∧ ∃ j, r₂.2.1.json = .ser j ∧ pyDeepEq j v) := by
  cases hsk : st.settings.sort_keys with
  | true =>
    refine ⟨by simp [JSONFile.save, dumps, atomic_write_text], ?_⟩
    simp [JSONFile.save, dumps, atomic_write_text, JSONFile.reload,
      JSONFile.reload_load, json_load_target, parseText, hsk, pyDeepEq]
    exact sortKeys_idem v
  | false =>
    refine ⟨by simp [JSONFile.save, dumps, atomic_write_text], ?_⟩
    simp [JSONFile.save, dumps, atomic_write_text, JSONFile.reload,
      JSONFile.reload_load, json_load_target, parseText, hsk, pyDeepEq]

/-- C5: `reload(recover=False)` on an existing target file whose content
fails to parse raises `DefaultNotJSONSerializableError` when a default
path is configured and `JSONDeserializationError` when a default value is
configured (`parseFailErr` below), and leaves the filesystem — in
particular the still-invalid target file — unchanged. -/
theorem C5_reload_norecover_parse_fault
    (st : JSONFile) (fs : FS) (f : RFaults) (c : FileState)
    (ht : fs.target = some c) (hp : parseText c.text = none)
    (hr : f.read1 = false) :
    st.reload fs false f = (.error (parseFailErr st.defaultSpec), st, fs) ∧
    parseFailErr .byPath = .defaultNotJSONSerializableError .jsonDecode ∧
    (∀ w : PyVal, parseFailErr (.byValue w) = .jsonDeserializationError .jsonDecode) := by
  refine ⟨?_, rfl, fun w => rfl⟩
  simp [JSONFile.reload, ht, JSONFile.reload_load, json_load_target, hr, hp]

theorem C5_witness :
    ∃ c : FileState,
      (⟨some ⟨.invalid "x", "utf-8"⟩, none, none⟩ : FS).target = some c ∧
      parseText c.text = none ∧
      (⟨.ser .null, .byPath, {}⟩ : JSONFile).reload
          ⟨some ⟨.invalid "x", "utf-8"⟩, none, none⟩ false {}
        = (.error (.defaultNotJSONSerializableError .jsonDecode),
           ⟨.ser .null, .byPath, {}⟩, ⟨some ⟨.invalid "x", "utf-8"⟩, none, none⟩) := by
  refine ⟨⟨.invalid "x", "utf-8"⟩, rfl, rfl, ?_⟩
  exact (C5_reload_norecover_parse_fault ⟨.ser .null, .byPath, {}⟩
    ⟨some ⟨.invalid "x", "utf-8"⟩, none, none⟩ {} ⟨.invalid "x", "utf-8"⟩
    rfl rfl rfl).1

/-- C7: an atomic text write that fails at any point before the final
replace completes — during directory creation, while writing the temp
file, or at the replace itself — leaves the pre-existing content of the
target path fully intact and raises `FileAccessError` with the underlying
cause attached. -/
theorem C7_atomic_write_failure_preserves_target
    (fs : FS) (t : FileText) (enc : String) (o : WriteOutcome)
    (h : o ≠ .success) :
    (atomic_write_text fs t enc o).1 = .error (.fileAccessError .osFault) ∧
    (atomic_write_text fs t enc o).2.target = fs.target := by
  cases o with
  | success => exact absurd rfl h
  | mkdirFail => exact ⟨rfl, rfl⟩
  | tempWriteFail lt => exact ⟨rfl, rfl⟩
  | replaceFail => exact ⟨rfl, rfl⟩

theorem C7_witness :
    (atomic_write_text ⟨some ⟨.emptyObj, "utf-8"⟩, none, none⟩
        (.dump .null 4 true false) "utf-8" .replaceFail).1
      = .error (.fileAccessError .osFault) ∧
    (atomic_write_text ⟨some ⟨.emptyObj, "utf-8"⟩, none, none⟩
        (.dump .null 4 true false) "utf-8" .replaceFail).2.target
      = some ⟨.emptyObj, "utf-8"⟩ :=
  C7_atomic_write_failure_preserves_target ⟨some ⟨.emptyObj, "utf-8"⟩, none, none⟩
    (.dump .null 4 true false) "utf-8" .replaceFail
    (fun hc => WriteOutcome.noConfusion hc)

/-- C8 counterexample: with instance encoding "utf-8", `save` given an
explicit settings object whose encoding is "latin-1" writes the file with
the *instance's* encoding "utf-8" (fileutils.py line 366 passes
`self.settings.encoding`), not the given settings' encoding — refuting
the claim that the written text's encoding comes from the given settings. -/
theorem C8_counterexample :
    ((⟨.ser .null, .byValue (.ser .null), {}⟩ : JSONFile).save
        ⟨none, none, none⟩ (some ⟨2, false, true, "latin-1"⟩) {}).2.2.target
      = some ⟨.dump .null 2 false true, "utf-8"⟩ ∧ ("utf-8" : String) ≠ "latin-1" :=
  ⟨rfl, by decide⟩

/-- C8 (amended): `save(settings)` with an explicit settings object writes
the serialization of the current value under the *given* settings' indent,
key ordering and ASCII escaping, but always uses the *instance* settings'
text encoding for the write; the instance's settings are used in full only
when no settings argument is given. -/
theorem C8_save_settings_used
    (st : JSONFile) (fs : FS) (gs : JsonSerializationSettings) (j : JSON)
    (hj : st.json = .ser j) :
    (st.save fs (some gs) {}).2.2.target
        = some ⟨.dump j gs.indent gs.sort_keys gs.ensure_ascii, st.settings.encoding⟩ ∧
    (st.save fs none {}).2.2.target
        = some ⟨.dump j st.settings.indent st.settings.sort_keys
                  st.settings.ensure_ascii, st.settings.encoding⟩ := by
  constructor <;> simp [JSONFile.save, hj, dumps, atomic_write_text]

theorem C8_witness :
    ((⟨.ser (.num 7), .byPath, {}⟩ : JSONFile).save ⟨none, none, none⟩
        (some ⟨0, false, true, "ascii"⟩) {}).2.2.target
      = some ⟨.dump (.num 7) 0 false true, "utf-8"⟩ ∧
    ((⟨.ser (.num 7), .byPath, {}⟩ : JSONFile).save ⟨none, none, none⟩
        none {}).2.2.target
      = some ⟨.dump (.num 7) 4 true false, "utf-8"⟩ :=
  C8_save_settings_used ⟨.ser (.num 7), .byPath, {}⟩ ⟨none, none, none⟩
    ⟨0, false, true, "ascii"⟩ (.num 7) rfl

/-- C10: `save` on an unserializable in-memory value (absent an injected
directory-creation fault) raises the serializer's own `TypeError`
unwrapped — the source's handler catches only `PermissionError`/`OSError`
— and leaves the filesystem, in particular the file at the target path,
completely unchanged: `json.dumps` runs before any write to the target
file. -/
theorem C10_save_unserializable_raises_raw_typeerror
    (st : JSONFile) (fs : FS) (sa : Option JsonSerializationSettings)
    (f : SFaults) (tag : Nat)
    (hj : st.json = .unser tag) (hm : f.mkdirFault = false) :
    st.save fs sa f = (.error .typeErrorRaw, st, fs) := by
  simp [JSONFile.save, hm, hj, dumps]

theorem C10_witness :
    (⟨.unser 3, .byValue (.ser .null), {}⟩ : JSONFile).save
        ⟨some ⟨.emptyObj, "utf-8"⟩, none, none⟩ none {}
      = (.error .typeErrorRaw, ⟨.unser 3, .byValue (.ser .null), {}⟩,
         ⟨some ⟨.emptyObj, "utf-8"⟩, none, none⟩) :=
  C10_save_unserializable_raises_raw_typeerror
    ⟨.unser 3, .byValue (.ser .null), {}⟩ ⟨some ⟨.emptyObj, "utf-8"⟩, none, none⟩
    none {} 3 rfl rfl

/-- C2 (code behaviour at the claim's failing input): construction performs
`reload(recover=strict)` (fileutils.py line 218), so with `strict=False`,
`load_file=True`, a perfectly serializable default value and an existing
target file containing invalid JSON, construction raises
`JSONDeserializationError` — the *non-strict* construction surfaces the
reload problem — while the same input with `strict=True` succeeds by
silently repairing the file. This is the opposite of the claim (and of the
`__init__` docstring, which says `JSONDeserializationError` is raised when
strict is True). -/
theorem C2_construction_reload_semantics_inverted :
    (JSONFile.init ⟨some ⟨.invalid "x", "utf-8"⟩, none, none⟩ (.ser (.obj []))
        false {} false true {}).1
      = .error (.jsonDeserializationError .jsonDecode) ∧
    (JSONFile.init ⟨some ⟨.invalid "x", "utf-8"⟩, none, none⟩ (.ser (.obj []))
        false {} true true {}).1
      = .ok ⟨.ser (.obj []), .byValue (.ser (.obj [])), {}⟩ :=
  ⟨rfl, rfl⟩

/-- C6 (code behaviour at the claim's failing input): with invalid target
content, a serializable default, `recover=True` and an I/O fault injected
on the single post-recovery retry read, `reload` raises the raw `OSError`
unwrapped — the retry `try` block (fileutils.py lines 325-337) catches
only `json.JSONDecodeError` — refuting the claim (and the `reload`
docstring) that I/O faults are always surfaced as `FileAccessError`. The
same fault on the first read is wrapped as `FileAccessError`. -/
theorem C6_retry_read_fault_not_wrapped :
    ((⟨.ser .null, .byValue (.ser .null), {}⟩ : JSONFile).reload
        ⟨some ⟨.invalid "x", "utf-8"⟩, none, none⟩ true
        { read2 := true }).1 = .error .osErrorRaw ∧
    ((⟨.ser .null, .byValue (.ser .null), {}⟩ : JSONFile).reload
        ⟨some ⟨.invalid "x", "utf-8"⟩, none, none⟩ true
        { read1 := true }).1 = .error (.fileAccessError .osFault) :=
  ⟨rfl, rfl⟩

theorem parseText_emptyObj : parseText .emptyObj = some (.obj []) := rfl

/-- The target file is missing or its content fails to parse as JSON. -/
def badTarget (fs : FS) : Bool :=
  match fs.target with
  | none => true
  | some c => (parseText c.text).isNone

/-- The configured default is itself unusable: an unserializable default
value, a missing default-source file, or a default-source file whose
content fails to parse as JSON (so that even post-recovery parsing fails). -/
def badDefault (st : JSONFile) (fs : FS) : Bool :=
  match st.defaultSpec with
  | .byValue (.ser _) => false
  | .byValue (.unser _) => true
  | .byPath =>
    match fs.defaultFile with
    | none => true
    | some d => (parseText d.text).isNone

/-- C3: `reload(recover=True)` with a missing-or-unparsable target file and
an unusable default (and no injected I/O faults) terminates without
raising — the recovery path runs its single bounded retry and no more —
writes the empty object `"{}"` to the file, and leaves the in-memory
value equal to the empty object. -/
theorem C3_bounded_recovery_falls_back_to_empty_object
    (st : JSONFile) (fs : FS)
    (hbt : badTarget fs = true) (hbd : badDefault st fs = true) :
    st.reload fs true {} =
      (.ok (), { st with json := .ser (.obj []) },
       { fs with target := some ⟨.emptyObj, st.settings.encoding⟩, temp := none }) := by
  rcases hds : st.defaultSpec with v | _
  · -- default by value
    rcases v with j | tag
    · simp [badDefault, hds] at hbd
    · rcases ht : fs.target with _ | c
      · simp [JSONFile.reload, ht, JSONFile.reinstantiate_default, hds, dumps,
          atomic_write_text, JSONFile.reload_load, json_load_target, parseText_emptyObj]
      · have hp : parseText c.text = none := by
          have hx := hbt
          simp [badTarget, ht, Option.isNone_iff_eq_none] at hx
          exact hx
        simp [JSONFile.reload, ht, JSONFile.reload_load, json_load_target, hp,
          JSONFile.reinstantiate_default, hds, dumps, atomic_write_text, parseText_emptyObj]
  · -- default by path
    rcases hdf : fs.defaultFile with _ | d
    · rcases ht : fs.target with _ | c
      · simp [JSONFile.reload, ht, JSONFile.reinstantiate_default, hds, hdf,
          atomic_write_text, JSONFile.reload_load, json_load_target, parseText_emptyObj]
      · have hp : parseText c.text = none := by
          have hx := hbt
          simp [badTarget, ht, Option.isNone_iff_eq_none] at hx
          exact hx
        simp [JSONFile.reload, ht, JSONFile.reload_load, json_load_target, hp,
          JSONFile.reinstantiate_default, hds, hdf, atomic_write_text, parseText_emptyObj]
    · have hpd : parseText d.text = none := by
        have hx := hbd
        simp [badDefault, hds, hdf, Option.isNone_iff_eq_none] at hx
        exact hx
      rcases ht : fs.target with _ | c
      · simp [JSONFile.reload, ht, JSONFile.reinstantiate_default, hds, hdf,
          atomic_copy_file, JSONFile.reload_load, json_load_target, hpd,
          atomic_write_text, parseText_emptyObj]
      · have hp : parseText c.text = none := by
          have hx := hbt
          simp [badTarget, ht, Option.isNone_iff_eq_none] at hx
          exact hx
        simp [JSONFile.reload, ht, JSONFile.reload_load, json_load_target, hp,
          JSONFile.reinstantiate_default, hds, hdf, atomic_copy_file, hpd,
          atomic_write_text, parseText_emptyObj]

theorem C3_witness :
    badTarget ⟨none, none, none⟩ = true ∧
    badDefault ⟨.ser .null, .byValue (.unser 0), {}⟩ ⟨none, none, none⟩ = true ∧
    (⟨.ser .null, .byValue (.unser 0), {}⟩ : JSONFile).reload ⟨none, none, none⟩ true {} =
      (.ok (), ⟨.ser (.obj []), .byValue (.unser 0), {}⟩,
       ⟨some ⟨.emptyObj, "utf-8"⟩, none, none⟩) :=
  ⟨rfl, rfl,
    C3_bounded_recovery_falls_back_to_empty_object
      ⟨.ser .null, .byValue (.unser 0), {}⟩ ⟨none, none, none⟩ rfl rfl⟩

/-- A node of the Python object heap, used to model `copy.deepcopy` of the
`default_data` argument (fileutils.py line 214): JSON-like scalars, lists
and dicts whose children are heap addresses, and `set` objects
(JSON-unserializable). -/
inductive PyNode where
  | nullN
  | boolN (b : Bool)
  | intN (n : Int)
  | strN (s : String)
  | listN (elems : List Nat)
  | dictN (entries : List (String × Nat))
  | setN (elems : List Nat)
deriving DecidableEq

/-- A heap of Python objects; an address is an index into the list. -/
abbrev Heap := List PyNode

mutual

/-- Read the JSON value of the object graph rooted at address `a` — the
value that `json.dumps` would serialize. Fails on dangling references, on
unserializable `set` nodes, and when the fuel runs out (cyclic graphs);
fuel is consumed on every step, so any sufficiently large fuel computes
the value of a finite acyclic graph. -/
def readValue : Nat → Heap → Nat → Option JSON
  | 0, _, _ => none
  | fuel+1, h, a =>
    match h[a]? with
    | none => none
    | some .nullN => some .null
    | some (.boolN b) => some (.bool b)
    | some (.intN n) => some (.num n)
    | some (.strN s) => some (.str s)
    | some (.listN es) => (readList fuel h es).map .arr
    | some (.dictN es) => (readEntries fuel h es).map .obj
    | some (.setN _) => none

/-- `readValue` over a list of addresses. -/
def readList : Nat → Heap → List Nat → Option (List JSON)
  | _, _, [] => some []
  | 0, _, _ :: _ => none
  | fuel+1, h, a :: rest =>
    match readValue fuel h a, readList fuel h rest with
    | some j, some js => some (j :: js)
    | _, _ => none

/-- `readValue` over the values of a dict's entries. -/
def readEntries : Nat → Heap → List (String × Nat) → Option (List (String × JSON))
  | _, _, [] => some []
  | 0, _, _ :: _ => none
  | fuel+1, h, (k, a) :: rest =>
    match readValue fuel h a, readEntries fuel h rest with
    | some j, some js => some ((k, j) :: js)
    | _, _ => none

end

mutual

/-- Model of `copy.deepcopy` on the object graph rooted at `a`: copies every
reachable node into fresh addresses appended at the end of the heap and
returns the address of the copy's root together with the extended heap.
Python's memo-based sharing is abstracted away — shared substructure is
duplicated, which reads back as the same value. Fuel bounds the traversal
(cyclic inputs fail rather than loop). -/
def deepcopyNode : Nat → Heap → Nat → Option (Nat × Heap)
  | 0, _, _ => none
  | fuel+1, h, a =>
    match h[a]? with
    | none => none
    | some .nullN => some (h.length, h ++ [.nullN])
    | some (.boolN b) => some (h.length, h ++ [.boolN b])
    | some (.intN n) => some (h.length, h ++ [.intN n])
    | some (.strN s) => some (h.length, h ++ [.strN s])
    | some (.listN es) =>
      match deepcopyList fuel h es with
      | none => none
      | some (cs, h₁) => some (h₁.length, h₁ ++ [.listN cs])
    | some (.dictN es) =>
      match deepcopyEntries fuel h es with
      | none => none
      | some (cs, h₁) => some (h₁.length, h₁ ++ [.dictN cs])
    | some (.setN es) =>
      match deepcopyList fuel h es with
      | none => none
      | some (cs, h₁) => some (h₁.length, h₁ ++ [.setN cs])

/-- `deepcopyNode` threaded over a list of addresses. -/
def deepcopyList : Nat → Heap → List Nat → Option (List Nat × Heap)
  | _, h, [] => some ([], h)
  | 0, _, _ :: _ => none
  | fuel+1, h, a :: rest =>
    match deepcopyNode fuel h a with
    | none => none
    | some (c, h₁) =>
      match deepcopyList fuel h₁ rest with
      | none => none
      | some (cs, h₂) => some (c :: cs, h₂)

/-- `deepcopyNode` threaded over the values of a dict's entries. -/
def deepcopyEntries : Nat → Heap → List (String × Nat) →
    Option (List (String × Nat) × Heap)
  | _, h, [] => some ([], h)
  | 0, _, _ :: _ => none
  | fuel+1, h, (k, a) :: rest =>
    match deepcopyNode fuel h a with
    | none => none
    | some (c, h₁) =>
      match deepcopyEntries fuel h₁ rest with
      | none => none
      | some (cs, h₂) => some ((k, c) :: cs, h₂)

end

/-- Outgoing heap references of a node. -/
def nodeChildren : PyNode → List Nat
  | .listN es => es
  | .setN es => es
  | .dictN es => es.map Prod.snd
  | _ => []

/-- Every node stored at an address in `[lo, hi)` of `h` has all its
children inside `[lo, hi)`: the region is self-contained. -/
def RegionClosed (lo hi : Nat) (h : Heap) : Prop :=
  ∀ i, i < hi → lo ≤ i →
    ∀ nd, h[i]? = some nd → ∀ b ∈ nodeChildren nd, lo ≤ b ∧ b < hi

/-- `h₂` agrees with `h₁` on every address in `[lo, hi)`. -/
def AgreesOn (lo hi : Nat) (h₁ h₂ : Heap) : Prop :=
  ∀ i, i < hi → lo ≤ i → h₂[i]? = h₁[i]?

instance (lo hi : Nat) (h₁ h₂ : Heap) : Decidable (AgreesOn lo hi h₁ h₂) :=
  inferInstanceAs (Decidable (∀ i, i < hi → lo ≤ i → h₂[i]? = h₁[i]?))

theorem RegionClosed_vacuous {lo hi : Nat} {h : Heap} (hle : hi ≤ lo) :
    RegionClosed lo hi h :=
  fun _ hiu hil _ _ _ _ => absurd (lt_of_lt_of_le hiu hle) (Nat.not_lt.mpr hil)

theorem RegionClosed_merge {lo : Nat} {h₁ ext : Heap}
    (r1 : RegionClosed lo h₁.length h₁)
    (r2 : RegionClosed h₁.length (h₁ ++ ext).length (h₁ ++ ext))
    (hlo : lo ≤ h₁.length) :
    RegionClosed lo (h₁ ++ ext).length (h₁ ++ ext) := by
  intro i hiu hil nd hnd b hb
  by_cases hcase : i < h₁.length
  · rw [List.getElem?_append_left hcase] at hnd
    obtain ⟨hb1, hb2⟩ := r1 i hcase hil nd hnd b hb
    exact ⟨hb1, lt_of_lt_of_le hb2 (by simp)⟩
  · obtain ⟨hb1, hb2⟩ := r2 i hiu (Nat.le_of_not_lt hcase) nd hnd b hb
    exact ⟨le_trans hlo hb1, hb2⟩

theorem RegionClosed_concat {lo : Nat} {h₁ : Heap} {nd : PyNode}
    (r1 : RegionClosed lo h₁.length h₁)
    (hnd : ∀ b ∈ nodeChildren nd, lo ≤ b ∧ b < h₁.length + 1)
    (_hlo : lo ≤ h₁.length) :
    RegionClosed lo (h₁ ++ [nd]).length (h₁ ++ [nd]) := by
  intro i hiu hil nd' hnd' b hb
  by_cases hcase : i < h₁.length
  · rw [List.getElem?_append_left hcase] at hnd'
    obtain ⟨hb1, hb2⟩ := r1 i hcase hil nd' hnd' b hb
    refine ⟨hb1, ?_⟩
    simp only [List.length_append, List.length_cons, List.length_nil]
    omega
  · have hieq : i = h₁.length := by
      simp only [List.length_append, List.length_cons, List.length_nil] at hiu
      omega
    subst hieq
    rw [List.getElem?_concat_length] at hnd'
    injection hnd' with hh
    subst hh
    obtain ⟨hb1, hb2⟩ := hnd b hb
    refine ⟨hb1, ?_⟩
    simp only [List.length_append, List.length_cons, List.length_nil]
    omega

/-- Stage-1 statement for `deepcopyNode`: the copy extends the heap, the
copy's root lies in the fresh region, and the fresh region is
self-contained. -/
def CopySpecNode (f : Nat) : Prop :=
  ∀ h a c h₁, deepcopyNode f h a = some (c, h₁) →
    (∃ ext, h₁ = h ++ ext) ∧ h.length ≤ c ∧ c < h₁.length ∧
    RegionClosed h.length h₁.length h₁

/-- Stage-1 statement for `deepcopyList`. -/
def CopySpecList (f : Nat) : Prop :=
  ∀ h es cs h₁, deepcopyList f h es = some (cs, h₁) →
    (∃ ext, h₁ = h ++ ext) ∧ (∀ c ∈ cs, h.length ≤ c ∧ c < h₁.length) ∧
    RegionClosed h.length h₁.length h₁

/-- Stage-1 statement for `deepcopyEntries`. -/
def CopySpecEntries (f : Nat) : Prop :=
  ∀ h es cs h₁, deepcopyEntries f h es = some (cs, h₁) →
    (∃ ext, h₁ = h ++ ext) ∧ (∀ p ∈ cs, h.length ≤ p.2 ∧ p.2 < h₁.length) ∧
    RegionClosed h.length h₁.length h₁

theorem copy_scalar_spec {h : Heap} {nd : PyNode} (hch : nodeChildren nd = []) :
    (∃ ext, h ++ [nd] = h ++ ext) ∧ h.length ≤ h.length ∧
    h.length < (h ++ [nd]).length ∧
    RegionClosed h.length (h ++ [nd]).length (h ++ [nd]) := by
  refine ⟨⟨[nd], rfl⟩, le_rfl, by simp, ?_⟩
  exact RegionClosed_concat (RegionClosed_vacuous le_rfl)
    (by intro b hb; rw [hch] at hb; cases hb) le_rfl

theorem copySpec : ∀ f : Nat, CopySpecNode f ∧ CopySpecList f ∧ CopySpecEntries f := by
  intro f
  induction f with
  | zero =>
    refine ⟨?_, ?_, ?_⟩
    · intro h a c h₁ hcp
      simp [deepcopyNode] at hcp
    · intro h es cs h₁ hcp
      cases es with
      | nil =>
        simp only [deepcopyList, Option.some.injEq, Prod.mk.injEq] at hcp
        obtain ⟨rfl, rfl⟩ := hcp
        exact ⟨⟨[], by simp⟩, by simp, RegionClosed_vacuous le_rfl⟩
      | cons a rest => simp [deepcopyList] at hcp
    · intro h es cs h₁ hcp
      cases es with
      | nil =>
        simp only [deepcopyEntries, Option.some.injEq, Prod.mk.injEq] at hcp
        obtain ⟨rfl, rfl⟩ := hcp
        exact ⟨⟨[], by simp⟩, by simp, RegionClosed_vacuous le_rfl⟩
      | cons p rest => cases p; simp [deepcopyEntries] at hcp
  | succ f ih =>
    obtain ⟨ihN, ihL, ihE⟩ := ih
    refine ⟨?_, ?_, ?_⟩
    · -- node
      intro h a c h₁ hcp
      simp only [deepcopyNode] at hcp
      cases hnd : h[a]? with
      | none => rw [hnd] at hcp; simp at hcp
      | some nd =>
        rw [hnd] at hcp
        cases nd with
        | nullN =>
          simp only [Option.some.injEq, Prod.mk.injEq] at hcp
          obtain ⟨hc, hh⟩ := hcp
          subst hc; subst hh
          exact copy_scalar_spec rfl
        | boolN b =>
          simp only [Option.some.injEq, Prod.mk.injEq] at hcp
          obtain ⟨hc, hh⟩ := hcp
          subst hc; subst hh
          exact copy_scalar_spec rfl
        | intN n =>
          simp only [Option.some.injEq, Prod.mk.injEq] at hcp
          obtain ⟨hc, hh⟩ := hcp
          subst hc; subst hh
          exact copy_scalar_spec rfl
        | strN s =>
          simp only [Option.some.injEq, Prod.mk.injEq] at hcp
          obtain ⟨hc, hh⟩ := hcp
          subst hc; subst hh
          exact copy_scalar_spec rfl
        | listN es =>
          cases hdl : deepcopyList f h es with
          | none => simp [hdl] at hcp
          | some val =>
            rcases val with ⟨cs0, hmid⟩
            simp only [hdl, Option.some.injEq, Prod.mk.injEq] at hcp
            obtain ⟨hc, hh⟩ := hcp
            subst hc; subst hh
            obtain ⟨⟨e₁, hext⟩, hbnds, hrc⟩ := ihL h es cs0 hmid hdl
            have hlen1 : h.length ≤ hmid.length := by rw [hext]; simp
            refine ⟨⟨e₁ ++ [.listN cs0], by rw [hext, List.append_assoc]⟩,
              hlen1, by simp, ?_⟩
            refine RegionClosed_concat hrc ?_ hlen1
            intro b hb
            obtain ⟨hb1, hb2⟩ := hbnds b hb
            exact ⟨hb1, by omega⟩
        | dictN es =>
          cases hdl : deepcopyEntries f h es with
          | none => simp [hdl] at hcp
          | some val =>
            rcases val with ⟨cs0, hmid⟩
            simp only [hdl, Option.some.injEq, Prod.mk.injEq] at hcp
            obtain ⟨hc, hh⟩ := hcp
            subst hc; subst hh
            obtain ⟨⟨e₁, hext⟩, hbnds, hrc⟩ := ihE h es cs0 hmid hdl
            have hlen1 : h.length ≤ hmid.length := by rw [hext]; simp
            refine ⟨⟨e₁ ++ [.dictN cs0], by rw [hext, List.append_assoc]⟩,
              hlen1, by simp, ?_⟩
            refine RegionClosed_concat hrc ?_ hlen1
            intro b hb
            simp only [nodeChildren, List.mem_map] at hb
            obtain ⟨p, hp, rfl⟩ := hb
            obtain ⟨hb1, hb2⟩ := hbnds p hp
            exact ⟨hb1, by omega⟩
        | setN es =>
          cases hdl : deepcopyList f h es with
          | none => simp [hdl] at hcp
          | some val =>
            rcases val with ⟨cs0, hmid⟩
            simp only [hdl, Option.some.injEq, Prod.mk.injEq] at hcp
            obtain ⟨hc, hh⟩ := hcp
            subst hc; subst hh
            obtain ⟨⟨e₁, hext⟩, hbnds, hrc⟩ := ihL h es cs0 hmid hdl
            have hlen1 : h.length ≤ hmid.length := by rw [hext]; simp
            refine ⟨⟨e₁ ++ [.setN cs0], by rw [hext, List.append_assoc]⟩,
              hlen1, by simp, ?_⟩
            refine RegionClosed_concat hrc ?_ hlen1
            intro b hb
            obtain ⟨hb1, hb2⟩ := hbnds b hb
            exact ⟨hb1, by omega⟩
    · -- list
      intro h es cs h₁ hcp
      cases es with
      | nil =>
        simp only [deepcopyList, Option.some.injEq, Prod.mk.injEq] at hcp
        obtain ⟨rfl, rfl⟩ := hcp
        exact ⟨⟨[], by simp⟩, by simp, RegionClosed_vacuous le_rfl⟩
      | cons a rest =>
        simp only [deepcopyList] at hcp
        cases hdn : deepcopyNode f h a with
        | none => simp [hdn] at hcp
        | some val =>
          rcases val with ⟨c0, hmid⟩
          simp only [hdn] at hcp
          cases hdl : deepcopyList f hmid rest with
          | none => simp [hdl] at hcp
          | some val2 =>
            rcases val2 with ⟨cs0, h₂⟩
            simp only [hdl, Option.some.injEq, Prod.mk.injEq] at hcp
            obtain ⟨hcs, hh⟩ := hcp
            subst hcs; subst hh
            obtain ⟨⟨e₁, hext1⟩, hc1, hc2, hrc1⟩ := ihN h a c0 hmid hdn
            obtain ⟨⟨e₂, hext2⟩, hbnds, hrc2⟩ := ihL hmid rest cs0 h₂ hdl
            have hlen1 : h.length ≤ hmid.length := by rw [hext1]; simp
            have hlen2 : hmid.length ≤ h₂.length := by rw [hext2]; simp
            refine ⟨⟨e₁ ++ e₂, by rw [hext2, hext1, List.append_assoc]⟩, ?_, ?_⟩
            · intro x hx
              rcases List.mem_cons.mp hx with rfl | hx2
              · exact ⟨hc1, lt_of_lt_of_le hc2 hlen2⟩
              · obtain ⟨hb1, hb2⟩ := hbnds x hx2
                exact ⟨le_trans hlen1 hb1, hb2⟩
            · subst hext2
              exact RegionClosed_merge hrc1 hrc2 hlen1
    · -- entries
      intro h es cs h₁ hcp
      cases es with
      | nil =>
        simp only [deepcopyEntries, Option.some.injEq, Prod.mk.injEq] at hcp
        obtain ⟨rfl, rfl⟩ := hcp
        exact ⟨⟨[], by simp⟩, by simp, RegionClosed_vacuous le_rfl⟩
      | cons p rest =>
        rcases p with ⟨k, a⟩
        simp only [deepcopyEntries] at hcp
        cases hdn : deepcopyNode f h a with
        | none => simp [hdn] at hcp
        | some val =>
          rcases val with ⟨c0, hmid⟩
          simp only [hdn] at hcp
          cases hdl : deepcopyEntries f hmid rest with
          | none => simp [hdl] at hcp
          | some val2 =>
            rcases val2 with ⟨cs0, h₂⟩
            simp only [hdl, Option.some.injEq, Prod.mk.injEq] at hcp
            obtain ⟨hcs, hh⟩ := hcp
            subst hcs; subst hh
            obtain ⟨⟨e₁, hext1⟩, hc1, hc2, hrc1⟩ := ihN h a c0 hmid hdn
            obtain ⟨⟨e₂, hext2⟩, hbnds, hrc2⟩ := ihE hmid rest cs0 h₂ hdl
            have hlen1 : h.length ≤ hmid.length := by rw [hext1]; simp
            have hlen2 : hmid.length ≤ h₂.length := by rw [hext2]; simp
            refine ⟨⟨e₁ ++ e₂, by rw [hext2, hext1, List.append_assoc]⟩, ?_, ?_⟩
            · intro x hx
              rcases List.mem_cons.mp hx with rfl | hx2
              · exact ⟨hc1, lt_of_lt_of_le hc2 hlen2⟩
              · obtain ⟨hb1, hb2⟩ := hbnds x hx2
                exact ⟨le_trans hlen1 hb1, hb2⟩
            · subst hext2
              exact RegionClosed_merge hrc1 hrc2 hlen1

/-- Stage-2 statement for `readValue`: reading an address of a
self-contained region is insensitive to the heap outside that region. -/
def ReadSpecV (g : Nat) : Prop :=
  ∀ lo hi : Nat, ∀ h₁ h₂ : Heap, RegionClosed lo hi h₁ → AgreesOn lo hi h₁ h₂ →
    ∀ a, lo ≤ a → a < hi → readValue g h₂ a = readValue g h₁ a

/-- Stage-2 statement for `readList`. -/
def ReadSpecL (g : Nat) : Prop :=
  ∀ lo hi : Nat, ∀ h₁ h₂ : Heap, RegionClosed lo hi h₁ → AgreesOn lo hi h₁ h₂ →
    ∀ es : List Nat, (∀ b ∈ es, lo ≤ b ∧ b < hi) →
      readList g h₂ es = readList g h₁ es

/-- Stage-2 statement for `readEntries`. -/
def ReadSpecE (g : Nat) : Prop :=
  ∀ lo hi : Nat, ∀ h₁ h₂ : Heap, RegionClosed lo hi h₁ → AgreesOn lo hi h₁ h₂ →
    ∀ es : List (String × Nat), (∀ p ∈ es, lo ≤ p.2 ∧ p.2 < hi) →
      readEntries g h₂ es = readEntries g h₁ es

theorem readSpec : ∀ g : Nat, ReadSpecV g ∧ ReadSpecL g ∧ ReadSpecE g := by
  intro g
  induction g with
  | zero =>
    refine ⟨?_, ?_, ?_⟩
    · intro lo hi h₁ h₂ _ _ a _ _; rfl
    · intro lo hi h₁ h₂ _ _ es _
      cases es with
      | nil => rfl
      | cons a rest => rfl
    · intro lo hi h₁ h₂ _ _ es _
      cases es with
      | nil => rfl
      | cons p rest => cases p; rfl
  | succ g ih =>
    obtain ⟨ihV, ihL, ihE⟩ := ih
    refine ⟨?_, ?_, ?_⟩
    · intro lo hi h₁ h₂ hrc hag a ha1 ha2
      have hget : h₂[a]? = h₁[a]? := hag a ha2 ha1
      simp only [readValue, hget]
      cases hnd : h₁[a]? with
      | none => rfl
      | some nd =>
        cases nd with
        | nullN => rfl
        | boolN b => rfl
        | intN n => rfl
        | strN s => rfl
        | listN es =>
          have hch : ∀ b ∈ es, lo ≤ b ∧ b < hi := by
            intro b hb
            exact hrc a ha2 ha1 (.listN es) hnd b (by simpa [nodeChildren] using hb)
          simp only [ihL lo hi h₁ h₂ hrc hag es hch]
        | dictN es =>
          have hch : ∀ p ∈ es, lo ≤ p.2 ∧ p.2 < hi := by
            intro p hp
            exact hrc a ha2 ha1 (.dictN es) hnd p.2
              (List.mem_map_of_mem Prod.snd hp)
          simp only [ihE lo hi h₁ h₂ hrc hag es hch]
        | setN es => rfl
    · intro lo hi h₁ h₂ hrc hag es hbs
      cases es with
      | nil => rfl
      | cons a rest =>
        have h1 := ihV lo hi h₁ h₂ hrc hag a (hbs a (by simp)).1 (hbs a (by simp)).2
        have h2 := ihL lo hi h₁ h₂ hrc hag rest (fun b hb => hbs b (by simp [hb]))
        simp only [readList, h1, h2]
    · intro lo hi h₁ h₂ hrc hag es hbs
      cases es with
      | nil => rfl
      | cons p rest =>
        rcases p with ⟨k, a⟩
        have h1 := ihV lo hi h₁ h₂ hrc hag a
          (hbs (k, a) (by simp)).1 (hbs (k, a) (by simp)).2
        have h2 := ihE lo hi h₁ h₂ hrc hag rest (fun b hb => hbs b (by simp [hb]))
        simp only [readEntries, h1, h2]

/-- Mapping of an object-graph read to the Python value the library captures
as its default: a readable graph is the serializable value; an unreadable
one (e.g. containing a `set`) is an unserializable object. -/
def pyValOfRead : Option JSON → PyVal
  | some j => .ser j
  | none => .unser 0

/-- A `JSONFile` instance whose captured `default_data` is the given value,
with default serialization settings. -/
def docWithDefault (v : PyVal) : JSONFile := ⟨.ser .null, .byValue v, {}⟩

/-- `reload()` on a missing target file with no injected faults — the
claim's "later reload from a missing file", which materializes the
captured default. -/
def reloadFromMissing (v : PyVal) : Except PyErr Unit × JSONFile × FS :=
  (docWithDefault v).reload ⟨none, none, none⟩ true {}

/-- C9: the `default_data` captured at construction is a deep, independent
copy. After `deepcopy` of the caller's object graph, any later heap
mutation that leaves the fresh copy region intact — in particular any
mutation of the caller's original object, which lives entirely in the old
region below `h.length` — does not change the value read from the copy;
consequently the run over the mutated heap and the run over the unmutated
heap produce the same recovered file content and the same in-memory value
on a later reload-from-missing-file. -/
theorem C9_default_deepcopy_isolation
    (f : Nat) (h : Heap) (a c : Nat) (h₁ h₂ : Heap) (g : Nat)
    (hcopy : deepcopyNode f h a = some (c, h₁))
    (hmut : AgreesOn h.length h₁.length h₁ h₂) :
    readValue g h₂ c = readValue g h₁ c ∧
    reloadFromMissing (pyValOfRead (readValue g h₂ c))
      = reloadFromMissing (pyValOfRead (readValue g h₁ c)) := by
  obtain ⟨-, hc1, hc2, hrc⟩ := (copySpec f).1 h a c h₁ hcopy
  have hr := (readSpec g).1 h.length h₁.length h₁ h₂ hrc hmut c hc1 hc2
  exact ⟨hr, by rw [hr]⟩

theorem C9_witness :
    deepcopyNode 3 [.dictN [("k", 1)], .intN 5] 0
        = some (3, [.dictN [("k", 1)], .intN 5, .intN 5, .dictN [("k", 2)]]) ∧
    AgreesOn 2 4 [.dictN [("k", 1)], .intN 5, .intN 5, .dictN [("k", 2)]]
        [.dictN [("k", 99)], .intN 99, .intN 5, .dictN [("k", 2)]] ∧
    readValue 4 [.dictN [("k", 99)], .intN 99, .intN 5, .dictN [("k", 2)]] 3
        = readValue 4 [.dictN [("k", 1)], .intN 5, .intN 5, .dictN [("k", 2)]] 3 ∧
    reloadFromMissing (pyValOfRead
        (readValue 4 [.dictN [("k", 99)], .intN 99, .intN 5, .dictN [("k", 2)]] 3))
      = reloadFromMissing (pyValOfRead
        (readValue 4 [.dictN [("k", 1)], .intN 5, .intN 5, .dictN [("k", 2)]] 3)) :=
  ⟨rfl, by decide,
    C9_default_deepcopy_isolation 3 [.dictN [("k", 1)], .intN 5] 0 3
      [.dictN [("k", 1)], .intN 5, .intN 5, .dictN [("k", 2)]]
      [.dictN [("k", 99)], .intN 99, .intN 5, .dictN [("k", 2)]] 4 rfl (by decide)⟩
